import Mathlib

/-!
Verification development for the map-llm-narrator pipeline.

The TypeScript sources are shallowly embedded in Lean:
strings are `String` (operated on through `List Char` so that every
operation is structurally recursive and kernel-evaluable), JavaScript
numbers are `ℚ` or `Int`/`Nat`, fallible code returns `Except`/`Option`,
and asynchronous network interactions are modelled by explicit
environment values (one outcome per endpoint attempt / strategy tier /
model-generation attempt).
-/

namespace MapNarrator

/-! ## Character-list utilities (JavaScript string primitives) -/

/-- ASCII lower-casing of one character (JavaScript `toLowerCase` restricted
to the ASCII range actually exercised here). -/
def charLower (c : Char) : Char :=
  if 'A' ≤ c ∧ c ≤ 'Z' then Char.ofNat (c.toNat + 32) else c

/-- Lower-case a character list. -/
def lowerL (s : List Char) : List Char := s.map charLower

/-- Whitespace characters stripped by JavaScript `String.prototype.trim`
(restricted to the ASCII whitespace used by this code base). -/
def isWS (c : Char) : Bool := c == ' ' || c == '\t' || c == '\n' || c == '\r'

/-- JavaScript `String.prototype.trim` on character lists. -/
def trimL (s : List Char) : List Char :=
  ((s.dropWhile isWS).reverse.dropWhile isWS).reverse

/-- JavaScript `String.prototype.includes`: substring containment, by
scanning every suffix of the haystack. -/
def containsSub : List Char → List Char → Bool
  | [], pat => pat.isEmpty
  | c :: rest, pat => pat.isPrefixOf (c :: rest) || containsSub rest pat

/-! ## Narration schema (`src/lib/server/narrationSchema.ts`) -/

/-- One `placesToVisit` entry of the narration output. -/
structure PlaceToVisit where
  name : String
  distanceKm : ℚ
deriving DecidableEq, Repr

/-- The `activities` record of the narration output. -/
structure Activities where
  walk : String
  culture : String
  foodDrink : String
deriving DecidableEq, Repr

/-- The structured narration output produced by the model. -/
structure NarrationOutput where
  introParagraph : String
  detailParagraph : String
  placesToVisit : List PlaceToVisit
  activities : Activities
deriving DecidableEq, Repr

/-- String length as the number of characters. -/
def strLen (s : String) : Nat := s.toList.length

/-- Structural checks of `NarrationOutputSchema` (zod): length bounds on the
prose fields, `placesToVisit` of length exactly 3 with non-empty names and
non-negative distances, bounds on the three activity strings. -/
def schemaValidate (d : NarrationOutput) : Bool :=
  decide (50 ≤ strLen d.introParagraph) && decide (strLen d.introParagraph ≤ 500) &&
  decide (50 ≤ strLen d.detailParagraph) && decide (strLen d.detailParagraph ≤ 500) &&
  d.placesToVisit.length == 3 &&
  d.placesToVisit.all (fun p => decide (1 ≤ strLen p.name) && decide (0 ≤ p.distanceKm)) &&
  decide (10 ≤ strLen d.activities.walk) && decide (strLen d.activities.walk ≤ 200) &&
  decide (10 ≤ strLen d.activities.culture) && decide (strLen d.activities.culture ≤ 200) &&
  decide (10 ≤ strLen d.activities.foodDrink) && decide (strLen d.activities.foodDrink ≤ 200)

/-- Result of a validation call, mirroring `ValidationResult<T>`. -/
inductive ValidationResult where
  | ok (data : NarrationOutput)
  | fail (error : String) (issues : List String)
deriving DecidableEq, Repr

/-- Whether a validation result is the success variant. -/
def ValidationResult.isSuccess : ValidationResult → Bool
  | .ok _ => true
  | .fail _ _ => false

/-- Model of `validateNarrationOutput`: schema validation with an issue list (the
individual zod issue strings are abstracted to one marker entry, which no
claim inspects). -/
def validateNarrationOutput (d : NarrationOutput) : ValidationResult :=
  if schemaValidate d then .ok d else .fail "Schema validation failed" ["schema issue"]

/-- The sentinel placeholder string used when no facts exist. -/
def noneSentinel : String := "None found in data"

/-- Issues raised in the empty-`allowedNames` branch of
`validateNarrationOutputWithAllowedNames`: every `placesToVisit` name and
`activities.foodDrink` must equal the sentinel. -/
def emptyModeIssues (d : NarrationOutput) : List String :=
  (d.placesToVisit.filter (fun p => p.name != noneSentinel)).map
    (fun p => "No POIs available, but placesToVisit is not the sentinel (got: " ++ p.name ++ ")")
  ++ (if d.activities.foodDrink != noneSentinel then
        ["No POIs available, activities.foodDrink must be the sentinel"]
      else [])

/-- Issues raised in the non-empty-`allowedNames` branch of
`validateNarrationOutputWithAllowedNames`:
1. every `placesToVisit` name must be allowed;
2. `foodDrink` must be generic (the sentinel, or containing "none found"
   case-insensitively) or mention at least one allowed name;
3. `detailParagraph` must contain at least 2 of the 3 `placesToVisit` names. -/
def allowedModeIssues (d : NarrationOutput) (allowed : List String) : List String :=
  (d.placesToVisit.filter (fun p => !(allowed.contains p.name))).map
    (fun p => "placesToVisit contains disallowed name: " ++ p.name)
  ++ (let isGeneric := d.activities.foodDrink == noneSentinel
        || containsSub (lowerL d.activities.foodDrink.toList) "none found".toList
      let mentionsAllowed := allowed.any
        (fun name => containsSub d.activities.foodDrink.toList name.toList)
      if !isGeneric && !mentionsAllowed then
        ["activities.foodDrink does not reference any allowed food place"]
      else [])
  ++ (let mentionedCount := d.placesToVisit.countP
        (fun p => containsSub d.detailParagraph.toList p.name.toList)
      if decide (mentionedCount < 2) then
        ["detailParagraph must reference at least 2 placesToVisit"]
      else [])

/-- Model of `validateNarrationOutputWithAllowedNames`: schema validation followed by
the semantic allowed-name checks.  `allowedNames` (a JavaScript `Set`) is
modelled as a list; membership is exact string equality as in the source. -/
def validateNarrationOutputWithAllowedNames
    (d : NarrationOutput) (allowed : List String) : ValidationResult :=
  match validateNarrationOutput d with
  | .fail e i => .fail e i
  | .ok data =>
    let issues :=
      if allowed.isEmpty then emptyModeIssues data else allowedModeIssues data allowed
    if issues.isEmpty then .ok data else .fail "Allowed-name validation failed" issues

/-! ### Concrete narration data used by witnesses and counterexamples -/

/-- Allowed-name set for the C2 counterexample. -/
def c2Allowed : List String := ["Old Mill", "Harbor View", "Stone Bridge"]

/-- A schema-valid narration output whose `foodDrink` is neither the sentinel
nor mentions an allowed name, but contains "none found". -/
def c2Data : NarrationOutput :=
  { introParagraph :=
      "This spot offers a pleasant mix of history and coastal scenery for visitors."
    detailParagraph :=
      "Visitors can explore Old Mill and stroll over to Harbor View within a short walk."
    placesToVisit :=
      [ { name := "Old Mill", distanceKm := 1 }
      , { name := "Harbor View", distanceKm := 2 }
      , { name := "Stone Bridge", distanceKm := 3 } ]
    activities :=
      { walk := "Take a gentle loop along the waterfront paths."
        culture := "Browse whatever local exhibitions are on display."
        foodDrink := "Sadly none found nearby for refreshment stops" } }

/-- A schema-valid narration output in full sentinel mode. -/
def c3Data : NarrationOutput :=
  { introParagraph :=
      "This spot offers a pleasant mix of history and coastal scenery for visitors."
    detailParagraph :=
      "Little verified information is available here, so enjoy the general atmosphere."
    placesToVisit :=
      [ { name := "None found in data", distanceKm := 0 }
      , { name := "None found in data", distanceKm := 0 }
      , { name := "None found in data", distanceKm := 0 } ]
    activities :=
      { walk := "Take a gentle loop along the waterfront paths."
        culture := "Browse whatever local exhibitions are on display."
        foodDrink := "None found in data" } }

/-! ## Stream framing (`src/app/api/narrate/route.ts` `send` and
`src/lib/client/sse.ts` `streamNarration`) -/

/-- JavaScript `split` on a single separator character. -/
def splitOn1 (sep : Char) : List Char → List (List Char)
  | [] => [[]]
  | c :: rest =>
    if c = sep then [] :: splitOn1 sep rest
    else
      match splitOn1 sep rest with
      | [] => [[c]]
      | h :: t => (c :: h) :: t

/-- JavaScript `split` on the two-character separator "\n\n" (leftmost,
non-overlapping), as used by the client decoder. -/
def splitNN : List Char → List (List Char)
  | [] => [[]]
  | [c] => [[c]]
  | c₁ :: c₂ :: rest =>
    if c₁ = '\n' ∧ c₂ = '\n' then [] :: splitNN rest
    else
      match splitNN (c₂ :: rest) with
      | [] => [[c₁]]
      | h :: t => (c₁ :: h) :: t

/-- JavaScript `String.prototype.replace` with a string pattern and empty
replacement: remove the first occurrence of `pat`. -/
def removeFirstOcc (pat : List Char) : List Char → List Char
  | [] => []
  | c :: rest =>
    if pat.isPrefixOf (c :: rest) then (c :: rest).drop pat.length
    else c :: removeFirstOcc pat rest

/-- The route's `send` helper: split the logical message on newlines, prefix
every line with "data: " and terminate it with a newline, then append the
blank separator line. -/
def sendEncode (msg : List Char) : List Char :=
  ((splitOn1 '\n' msg).map (fun line => "data: ".toList ++ line ++ ['\n'])).flatten
    ++ ['\n']

/-- Encoding of one metadata record and one narrative event followed by the
terminal sentinel, exactly as the route emits them. -/
def encodeStream (meta narrative : List Char) : List Char :=
  sendEncode ("META:".toList ++ meta) ++ sendEncode narrative ++ sendEncode "END".toList

/-- The client decoder of `streamNarration`: split the byte stream on blank
lines, keep the last piece buffered (and hence unprocessed), and for every
event starting with "data:" remove the first occurrence of "data:" and trim
the result. -/
def decodeStream (s : List Char) : List (List Char) :=
  ((splitNN s).dropLast).filterMap
    (fun e =>
      if "data:".toList.isPrefixOf e then some (trimL (removeFirstOcc "data:".toList e))
      else none)

/-! ## Narrate route event sequences (`src/app/api/narrate/route.ts` `POST`) -/

/-- Message sent on the invalid-coordinates path. -/
def invalidCoordsMsg : String := "Invalid coordinates provided."

/-- Message sent by the outer catch-all handler. -/
def fatalErrorMsg : String := "Something went wrong generating this narration."

/-- Message sent when the generation stream fails after metadata was sent. -/
def genFailureMsg : String :=
  "Sorry — narration could not be completed for this location. Please try another point."

/-- Characters on which the route flushes its output buffer (the character
class of the boundary regex). -/
def isBoundary (c : Char) : Bool :=
  [' ', '\n', '\r', '\t', '.', ',', '!', '?', ';', ':', ')', ']'].contains c

/-- The route's chunk-buffering loop: accumulate model chunks in a buffer and
flush only when the buffer ends in a safe boundary character; flush any
non-empty remainder at the end. -/
def flushChunks : List String → List Char → List String
  | [], buf => if buf.isEmpty then [] else [String.mk buf]
  | ch :: rest, buf =>
    let b := buf ++ ch.toList
    match b.getLast? with
    | some c => if isBoundary c then String.mk b :: flushChunks rest [] else flushChunks rest b
    | none => flushChunks rest b

/-- Outcome environment for one `POST` call: which control path the request
takes, and (where narrative streaming is reached) the chunks produced by the
model before completion or failure. -/
inductive NarrateOutcome where
  | invalidInput
  | fatal
  | genFailure (metaJson : String) (sentEvents : List String)
  | success (metaJson : String) (chunks : List String)

/-- The logical framed events a `POST` call emits, one list entry per `send`
call (the invalid-input and fatal paths enqueue the same two-line frames that
`send` would produce for one-line messages). -/
def narrateEvents : NarrateOutcome → List String
  | .invalidInput => [invalidCoordsMsg, "END"]
  | .fatal => [fatalErrorMsg, "END"]
  | .genFailure m sent => ("META:" ++ m) :: sent ++ [genFailureMsg, "END"]
  | .success m chunks => ("META:" ++ m) :: flushChunks chunks [] ++ ["END"]

/-- Metadata string for the C4 counterexample. -/
def c4Meta : List Char := "m1".toList

/-- A two-line narrative for the C4 counterexample. -/
def c4Narr : List Char := "ab\ncd".toList

/-! ## POI data model (`src/lib/shared/types.ts`) -/

/-- A latitude/longitude pair.  JavaScript floating-point coordinates are
modelled as rationals. -/
structure LatLon where
  lat : ℚ
  lon : ℚ
deriving DecidableEq, Repr

/-- The POI category discriminator. -/
inductive PoiCategory where
  | attraction
  | food
deriving DecidableEq, Repr

/-- Coarse narrative bucket of a POI. -/
inductive PoiBucket where
  | food
  | history
  | culture
  | scenic
  | park
  | landmark
deriving DecidableEq, Repr

/-- Food subtype of a food POI. -/
inductive FoodKind where
  | pub
  | cafe
  | restaurant
  | bar
  | other
deriving DecidableEq, Repr

/-- A point of interest.  Optional source fields are `Option`s; `score` is an
integer narratability weight. -/
structure Poi where
  name : String
  category : PoiCategory
  lat : ℚ
  lon : ℚ
  distanceKm : ℚ
  osmUrl : Option String := none
  score : Option Int := none
  bucket : Option PoiBucket := none
  foodKind : Option FoodKind := none
  hint : Option String := none
deriving DecidableEq, Repr

/-! ## POI transformer (`src/lib/server/poiResolver.ts`) -/

/-- A raw Overpass element: node/way/relation with optional coordinates,
optional centre, and a tag record (modelled as an association list). -/
structure OverpassElement where
  elType : String
  elId : Nat
  lat : Option ℚ := none
  lon : Option ℚ := none
  center : Option LatLon := none
  tags : Option (List (String × String)) := none
deriving DecidableEq, Repr

/-- Look up a tag value. -/
def lookupTag (tags : Option (List (String × String))) (k : String) : Option String :=
  match tags with
  | none => none
  | some t => t.lookup k

/-- JavaScript truthiness of a tag value: present and non-empty. -/
def truthyTag (tags : Option (List (String × String))) (k : String) : Bool :=
  match lookupTag tags k with
  | some v => v != ""
  | none => false

/-- Model of `getElementCoords`: direct coordinates if both present, else the centre. -/
def getElementCoords (el : OverpassElement) : Option LatLon :=
  match el.lat, el.lon with
  | some a, some b => some ⟨a, b⟩
  | _, _ => el.center

/-- Model of `osmUrl`: canonical OpenStreetMap URL of an element. -/
def osmUrlOf (el : OverpassElement) : String :=
  let base := "https://www.openstreetmap.org"
  if el.elType == "node" then base ++ "/node/" ++ toString el.elId
  else if el.elType == "way" then base ++ "/way/" ++ toString el.elId
  else base ++ "/relation/" ++ toString el.elId

/-- Model of `normalizeName`: the name tag, else the name:en tag, else none,
with JavaScript falsiness of the empty string. -/
def normalizeName (tags : Option (List (String × String))) : Option String :=
  match lookupTag tags "name" with
  | some v => if v != "" then some v else
      (match lookupTag tags "name:en" with
       | some w => if w != "" then some w else none
       | none => none)
  | none =>
      match lookupTag tags "name:en" with
      | some w => if w != "" then some w else none
      | none => none

/-- Derived attraction metadata: bucket, hint and narratability score,
following `deriveAttractionMeta` statement by statement (each mutation of
the source's variables becomes a rebinding). -/
def deriveAttractionMeta (tags : Option (List (String × String))) :
    PoiBucket × String × Int :=
  let bucket : PoiBucket := .landmark
  let hint : String := ""
  let score : Int := 0
  let score := score + (if truthyTag tags "wikipedia" || truthyTag tags "wikidata" then 6 else 0)
  let score := score + (if truthyTag tags "website" then 3 else 0)
  let (bucket, hint, score) :=
    if truthyTag tags "tourism" then
      let tv := (lookupTag tags "tourism").getD ""
      if tv == "museum" then (PoiBucket.culture, "museum", score + 6)
      else if tv == "gallery" then (PoiBucket.culture, "gallery", score + 5)
      else if tv == "viewpoint" then (PoiBucket.scenic, "viewpoint", score + 5)
      else (PoiBucket.landmark, tv, score + 4)
    else (bucket, hint, score)
  let (bucket, hint, score) :=
    if truthyTag tags "historic" then
      let hv := (lookupTag tags "historic").getD ""
      if hv == "castle" then (PoiBucket.history, "castle", score + 7)
      else if hv == "ruins" then (PoiBucket.history, "ruins", score + 6)
      else (PoiBucket.history, hv, score + 5)
    else (bucket, hint, score)
  let (bucket, hint, score) :=
    if truthyTag tags "man_made" && hint == "" then
      let mv := (lookupTag tags "man_made").getD ""
      (PoiBucket.landmark, if mv == "lighthouse" then "lighthouse" else mv, score + 3)
    else (bucket, hint, score)
  let (bucket, hint, score) :=
    if truthyTag tags "natural" && hint == "" then
      let nv := (lookupTag tags "natural").getD ""
      (PoiBucket.scenic, if nv == "beach" then "beach" else nv, score + 4)
    else (bucket, hint, score)
  let lv := (lookupTag tags "leisure").getD ""
  let (bucket, hint, score) :=
    if lv == "park" || lv == "garden" || lv == "nature_reserve" then
      (PoiBucket.park, if hint == "" then lv else hint,
        score + (if truthyTag tags "wikipedia" || truthyTag tags "wikidata" then 3 else 0))
    else (bucket, hint, score)
  (bucket, hint, score)

/-- Derived food metadata: food kind, hint and score (`deriveFoodMeta`). -/
def deriveFoodMeta (tags : Option (List (String × String))) :
    FoodKind × String × Int :=
  let amenity := lookupTag tags "amenity"
  let av := amenity.getD ""
  let hint := if truthyTag tags "amenity" then av else "food & drink"
  let (foodKind, score) : FoodKind × Int :=
    if av == "pub" then (.pub, 5)
    else if av == "cafe" then (.cafe, 4)
    else if av == "restaurant" then (.restaurant, 3)
    else if av == "bar" then (.bar, 4)
    else (.other, 1)
  let score := score + (if truthyTag tags "website" then 2 else 0)
  let score := score + (if truthyTag tags "wikipedia" || truthyTag tags "wikidata" then 3 else 0)
  (foodKind, hint, score)

/-- Convert one element to a POI, if it has coordinates and a usable name
(the attraction branch drops the obvious low-signal names).  The
great-circle distance of the source (`kmBetween`, floating-point
trigonometry) is supplied as an abstract distance function `dist`; no claim
depends on its values. -/
def elementToPoi (dist : LatLon → LatLon → ℚ) (point : LatLon)
    (kind : PoiCategory) (el : OverpassElement) : Option Poi :=
  match getElementCoords el with
  | none => none
  | some coords =>
    match normalizeName el.tags with
    | none => none
    | some name =>
      let n := lowerL name.toList
      if kind == .attraction &&
          (n == "park".toList || n == "playground".toList
            || containsSub n "playing fields".toList) then
        none
      else
        let d := dist point coords
        match kind with
        | .attraction =>
          let meta := deriveAttractionMeta el.tags
          some { name, category := .attraction, lat := coords.lat, lon := coords.lon,
                 distanceKm := d, osmUrl := some (osmUrlOf el),
                 score := some meta.2.2, bucket := some meta.1, hint := some meta.2.1 }
        | .food =>
          let meta := deriveFoodMeta el.tags
          some { name, category := .food, lat := coords.lat, lon := coords.lon,
                 distanceKm := d, osmUrl := some (osmUrlOf el),
                 score := some meta.2.2, bucket := some .food,
                 foodKind := some meta.1, hint := some meta.2.1 }

/-- Round a rational to 4 decimal places, returning the integer number of
1/10000 units (JavaScript `toFixed(4)` up to tie-breaking on binary
floats, which no claim depends on). -/
def fixed4 (q : ℚ) : Int := ⌊q * 10000 + 1/2⌋

/-- Decimal rendering of `fixed4` with exactly four decimals. -/
def fixed4Str (q : ℚ) : String :=
  let n := fixed4 q
  let a := n.natAbs
  let frac := toString (a % 10000)
  let pad := String.mk (List.replicate (4 - frac.length) '0')
  (if n < 0 then "-" else "") ++ toString (a / 10000) ++ "." ++ pad ++ frac

/-- String rendering of a category, as used in the dedup key. -/
def categoryStr : PoiCategory → String
  | .attraction => "attraction"
  | .food => "food"

/-- The dedup key: lower-cased name, coordinates rounded to 4 decimals and
category, joined with "|". -/
def poiKey (p : Poi) : String :=
  String.mk (lowerL p.name.toList) ++ "|" ++ fixed4Str p.lat ++ "|"
    ++ fixed4Str p.lon ++ "|" ++ categoryStr p.category

/-- The dedup pass: keep the first POI per key, in order. -/
def dedupByKey : List Poi → List String → List Poi
  | [], _ => []
  | p :: rest, seen =>
    if seen.contains (poiKey p) then dedupByKey rest seen
    else p :: dedupByKey rest (poiKey p :: seen)

/-- The sort comparator: descending score (missing = 0) then ascending
distance.  `poiLe a b` means `a` may stay before `b` (comparator value
at most 0). -/
def poiLe (a b : Poi) : Bool :=
  let sa := a.score.getD 0
  let sb := b.score.getD 0
  if sb - sa ≠ 0 then decide (sb - sa ≤ 0) else decide (a.distanceKm ≤ b.distanceKm)

/-- Stable insertion of `x` (arriving after every element of the list) into
an already-sorted list. -/
def stableInsert (le : Poi → Poi → Bool) (x : Poi) : List Poi → List Poi
  | [] => [x]
  | y :: ys => if le y x then y :: stableInsert le x ys else x :: y :: ys

/-- Stable sort by repeated insertion.  JavaScript `Array.prototype.sort`
is stable, and a stable sort under a consistent comparator has a unique
result, so insertion sort is extensionally the source's sort. -/
def stableSort (le : Poi → Poi → Bool) (l : List Poi) : List Poi :=
  l.foldl (fun acc x => stableInsert le x acc) []

/-- Model of `elementsToPois`: convert, filter, dedup by key, and rank by score then
distance. -/
def elementsToPois (dist : LatLon → LatLon → ℚ) (point : LatLon)
    (kind : PoiCategory) (elements : List OverpassElement) : List Poi :=
  stableSort poiLe (dedupByKey (elements.filterMap (elementToPoi dist point kind)) [])

/-! ## Budgeted resolver (`src/lib/server/poiResolver.ts` `getPois` /
`getPoisSafe`) -/

/-- Outcome of one endpoint attempt inside `fetchOverpassWithFailover`:
a parsed response, an overload status (429/503/504), another non-2xx status
(thrown, then caught by the per-endpoint catch), or a network/timeout
error. -/
inductive EndpointOutcome where
  | success (elements : List OverpassElement)
  | overload (status : Nat)
  | httpError (status : Nat) (endpoint : String)
  | netError (msg : String)
deriving DecidableEq, Repr

/-- Whether an endpoint attempt failed. -/
def EndpointOutcome.fails : EndpointOutcome → Bool
  | .success _ => false
  | _ => true

/-- Model of `fetchOverpassWithFailover` over a list of per-endpoint outcomes: walk
the endpoints in order, return the first successful response, record the
last error otherwise; exhausting all endpoints raises the last recorded
error. -/
def fetchOverpassWithFailover :
    List EndpointOutcome → Option String → Except String (List OverpassElement)
  | [], lastErr => .error (lastErr.getD "Overpass failed on all endpoints")
  | o :: rest, lastErr =>
    match o with
    | .success els => .ok els
    | .overload s =>
      fetchOverpassWithFailover rest (some ("Overpass HTTP " ++ toString s ++ " (overloaded)"))
    | .httpError s ep =>
      fetchOverpassWithFailover rest (some ("Overpass HTTP " ++ toString s ++ " @ " ++ ep))
    | .netError m => fetchOverpassWithFailover rest (some m)

/-- The global wall-clock budget for POI resolution (milliseconds). -/
def POIS_BUDGET_MS : Nat := 10000

/-- Environment for one strategy tier of `getPois`: the wall-clock time
elapsed when the tier starts, and the endpoint outcomes of the two
concurrent category queries. -/
structure TierEnv where
  elapsedAtStart : Nat
  attrOutcomes : List EndpointOutcome
  foodOutcomes : List EndpointOutcome
deriving DecidableEq, Repr

/-- Resolved POI lists of one `getPois` call. -/
structure PoisValue where
  attractions : List Poi
  food : List Poi
deriving DecidableEq, Repr

/-- The strategy loop of `getPois`, one `TierEnv` per strategy tier.
Before a tier starts, the elapsed time is checked against the budget: if
exhausted, the per-category best accumulators are returned with the
`budgetExceeded` flag and no further tier is started.  Within a tier both
category queries run (`Promise.all`: the tier fails when either fails; the
attraction rejection is reported first, which in the source is
timing-dependent).  On success the tier returns immediately after updating
the accumulators; on failure the error is recorded and the next tier runs.
Exhausting all tiers raises the last error. -/
def getPoisLoop (dist : LatLon → LatLon → ℚ) (point : LatLon) :
    List Poi → List Poi → Option String → List TierEnv →
      Except String (PoisValue × Bool)
  | _, _, lastErr, [] => .error (lastErr.getD "All Overpass strategies failed")
  | bestA, bestF, lastErr, t :: rest =>
    if POIS_BUDGET_MS ≤ t.elapsedAtStart then
      .ok (⟨bestA, bestF⟩, true)
    else
      match fetchOverpassWithFailover t.attrOutcomes none with
      | .error m => getPoisLoop dist point bestA bestF (some m) rest
      | .ok aEls =>
        match fetchOverpassWithFailover t.foodOutcomes none with
        | .error m => getPoisLoop dist point bestA bestF (some m) rest
        | .ok fEls =>
          let attractions := (elementsToPois dist point .attraction aEls).take 25
          let food := (elementsToPois dist point .food fEls).take 25
          let bestA := if bestA.length < attractions.length then attractions else bestA
          let bestF := if bestF.length < food.length then food else bestF
          let _ := bestA
          let _ := bestF
          .ok (⟨attractions, food⟩, false)

/-- Model of `getPois` on a cache miss: run the strategy loop with empty accumulators
(the cache layer `withCacheJSON` is orthogonal to every claim and not
modelled). -/
def getPois (dist : LatLon → LatLon → ℚ) (point : LatLon) (env : List TierEnv) :
    Except String (PoisValue × Bool) :=
  getPoisLoop dist point [] [] none env

/-- The `PoisResult` record returned to the route. -/
structure PoisResult where
  attractions : List Poi
  food : List Poi
  errors : List String
  warnings : List String
deriving DecidableEq, Repr

/-- Model of `getPoisSafe`: never raises; on success it clears `errors` and attaches
the partial-results warning when the budget was exceeded, and on any error
it returns the empty result with a descriptive error string. -/
def getPoisSafe (dist : LatLon → LatLon → ℚ) (point : LatLon) (env : List TierEnv) :
    PoisResult × Bool :=
  match getPois dist point env with
  | .ok (v, budgetExceeded) =>
    (⟨v.attractions, v.food, [],
      if budgetExceeded then ["POI lookup timed out; showing partial nearby results."]
      else []⟩, false)
  | .error msg =>
    (⟨[], [], ["Overpass API unavailable: " ++ msg ++ ". Showing location info only."], []⟩,
      false)

/-! ## Diversity selectors (`src/lib/server/promptBuilder.ts`) -/

/-- Lower-cased name of a POI, the key of the `used` set. -/
def nameKey (p : Poi) : List Char := lowerL p.name.toList

/-- Name-validity filter of the selectors: the name is non-empty after
trimming. -/
def nameValid (p : Poi) : Bool := !(trimL p.name.toList).isEmpty

/-- The fixed attraction bucket priority list. -/
def attrBuckets : List PoiBucket := [.history, .culture, .scenic, .landmark, .park]

/-- The fixed food kind priority list. -/
def foodKinds : List FoodKind := [.pub, .restaurant, .cafe, .bar]

/-- Candidate pool of `pickDiverseAttractions`: the first 20 name-valid
POIs, in input order. -/
def attrCandidates (l : List Poi) : List Poi := (l.filter nameValid).take 20

/-- Candidate pool of `pickDiverseFood`: the name-valid POIs sorted by
descending score then ascending distance, first 20. -/
def foodCandidates (l : List Poi) : List Poi :=
  (stableSort poiLe (l.filter nameValid)).take 20

/-- The bucket/kind walk: for each key in priority order, take the first
candidate matching the key whose lower-cased name is unused, until `n` POIs
are picked. -/
def diversityPass {κ : Type} (cands : List Poi) (n : Nat) (keyMatch : κ → Poi → Bool) :
    List κ → List Poi → List (List Char) → List Poi × List (List Char)
  | [], picked, used => (picked, used)
  | k :: ks, picked, used =>
    if n ≤ picked.length then (picked, used)
    else
      match cands.find? (fun p => keyMatch k p && !(used.contains (nameKey p))) with
      | some best => diversityPass cands n keyMatch ks (picked ++ [best]) (used ++ [nameKey best])
      | none => diversityPass cands n keyMatch ks picked used

/-- The backfill walk: fill remaining slots from the candidate list in
order, skipping already-used names. -/
def backfill (n : Nat) : List Poi → List Poi → List (List Char) → List Poi
  | [], picked, _ => picked
  | p :: ps, picked, used =>
    if n ≤ picked.length then picked
    else if used.contains (nameKey p) then backfill n ps picked used
    else backfill n ps (picked ++ [p]) (used ++ [nameKey p])

/-- Model of `pickDiverseAttractions`: bucket walk then backfill over the first 20
name-valid candidates, truncated to `n`. -/
def pickDiverseAttractions (l : List Poi) (n : Nat) : List Poi :=
  (backfill n (attrCandidates l)
    (diversityPass (attrCandidates l) n (fun b p => p.bucket == some b) attrBuckets [] []).1
    (diversityPass (attrCandidates l) n (fun b p => p.bucket == some b) attrBuckets [] []).2).take n

/-- Model of `pickDiverseFood`: food-kind walk then backfill over the sorted first 20
name-valid candidates, truncated to `n`. -/
def pickDiverseFood (l : List Poi) (n : Nat) : List Poi :=
  (backfill n (foodCandidates l)
    (diversityPass (foodCandidates l) n (fun k p => p.foodKind == some k) foodKinds [] []).1
    (diversityPass (foodCandidates l) n (fun k p => p.foodKind == some k) foodKinds [] []).2).take n

/-! ## Validated generation loop (`src/lib/server/qwenClient.ts`
`generateQwenValidated`) -/

/-- Outcome of one model attempt, as seen by the retry loop: the buffered
response validated successfully, validation failed with an issue list, or
the streaming/parsing step threw (a parse failure counts as a failed
attempt). -/
inductive AttemptOutcome where
  | valid (out : NarrationOutput)
  | invalid (issues : List String)
  | throwErr (msg : String)
deriving DecidableEq, Repr

/-- Whether an attempt outcome passes validation. -/
def AttemptOutcome.isValid : AttemptOutcome → Bool
  | .valid _ => true
  | _ => false

/-- The error message recorded for a failed attempt (the `lastError` the
source keeps: the formatted validation message, or the thrown error). -/
def attemptFailMsg : AttemptOutcome → Nat → String
  | .invalid issues, attempt =>
    "Schema validation failed (attempt " ++ toString attempt ++ "): "
      ++ String.intercalate ", " issues
  | .throwErr m, _ => m
  | .valid _, _ => ""

/-- Default retry count of `generateQwenValidated`. -/
def defaultMaxRetries : Nat := 3

/-- Default inter-retry delay (milliseconds) of `generateQwenValidated`. -/
def defaultRetryDelayMs : Nat := 1000

deriving instance DecidableEq for Except

/-- Result of a run of the retry loop: the returned output or raised error,
the sequence of waits performed between attempts, and the number of attempts
made. -/
structure GenRun where
  result : Except String NarrationOutput
  waits : List Nat
  attemptsMade : Nat
deriving DecidableEq, Repr

/-- The `while (attempt < maxRetries)` loop of `generateQwenValidated`.
`attempt` is the number of attempts already made, `remaining` is
`maxRetries - attempt` (the loop fuel), `lastErr` the recorded last error;
`env i` is the outcome of the i-th attempt (1-based).  A wait of
`delay` is performed after a failed attempt only when another attempt
remains. -/
def genLoop (delay : Nat) (env : Nat → AttemptOutcome) :
    Nat → Nat → Option String → GenRun
  | attempt, 0, lastErr =>
    ⟨.error (lastErr.getD "Validation failed after all retries"), [], attempt⟩
  | attempt, remaining + 1, lastErr =>
    match env (attempt + 1) with
    | .valid out => ⟨.ok out, [], attempt + 1⟩
    | .invalid issues =>
      let rest := genLoop delay env (attempt + 1) remaining
        (some (attemptFailMsg (.invalid issues) (attempt + 1)))
      ⟨rest.result, (if 0 < remaining then [delay] else []) ++ rest.waits,
        rest.attemptsMade⟩
    | .throwErr m =>
      let rest := genLoop delay env (attempt + 1) remaining (some m)
      ⟨rest.result, (if 0 < remaining then [delay] else []) ++ rest.waits,
        rest.attemptsMade⟩

/-- Model of `generateQwenValidated` over an attempt-outcome environment. -/
def generateQwenValidated (delay maxRetries : Nat) (env : Nat → AttemptOutcome) : GenRun :=
  genLoop delay env 0 maxRetries none

/-- Attempt environment for the C7 counterexample: attempt 1 fails with issue
list ["issueA"], later attempts fail with ["issueB"]. -/
def c7Env : Nat → AttemptOutcome :=
  fun i => if i == 1 then .invalid ["issueA"] else .invalid ["issueB"]

/-! ### Concrete resolver and selector data used by witnesses and
counterexamples -/

/-- A trivial distance function for concrete runs (no claim depends on
distance values). -/
def zeroDist : LatLon → LatLon → ℚ := fun _ _ => 0

/-- The origin point, for concrete runs. -/
def originPt : LatLon := ⟨0, 0⟩

/-- A tier environment whose tier starts with the budget already elapsed. -/
def c1Tier : TierEnv := ⟨POIS_BUDGET_MS, [], []⟩

/-- A one-tier environment in which every endpoint attempt of both category
queries fails. -/
def c6Env : List TierEnv :=
  [⟨0, [.netError "connect ETIMEDOUT", .overload 503],
      [.netError "connect ETIMEDOUT", .overload 504]⟩]

/-- Build a concrete attraction POI for selector examples. -/
def mkAttraction (name : String) (b : PoiBucket) (score : Int) (d : ℚ) : Poi :=
  { name, category := .attraction, lat := 0, lon := 0, distanceKm := d,
    score := some score, bucket := some b, hint := some "" }

/-- Build a concrete food POI for selector examples. -/
def mkFood (name : String) (k : FoodKind) (score : Int) (d : ℚ) : Poi :=
  { name, category := .food, lat := 0, lon := 0, distanceKm := d,
    score := some score, bucket := some .food, foodKind := some k, hint := some "" }

/-- Candidates for the C9 counterexample: the only culture POI shares its
name, case-insensitively, with the history POI. -/
def c9Pois : List Poi :=
  [mkAttraction "X" .history 5 1, mkAttraction "x" .culture 4 1,
   mkAttraction "Y" .scenic 3 1]

/-- Candidates for the C9 witness: distinct names covering history, culture
and scenic. -/
def c9WitnessPois : List Poi :=
  [mkAttraction "Fort Hill" .history 5 1, mkAttraction "Town Gallery" .culture 4 1,
   mkAttraction "Cliff View" .scenic 3 1, mkAttraction "Old Pier" .landmark 2 1]

/-- Attraction list for the C10 witness. -/
def c10Attr : List Poi :=
  [mkAttraction "Fort Hill" .history 5 1, mkAttraction "Old Pier" .landmark 2 1]

/-- Food list for the C10 witness. -/
def c10Food : List Poi :=
  [mkFood "The Anchor" .pub 5 1, mkFood "Quay Cafe" .cafe 4 1]

/-! ## Theorems: semantic validation (claims C2 and C3) -/

theorem isSuccess_ite (c : Bool) (d : NarrationOutput) (e : String) (i : List String) :
    (if c then ValidationResult.ok d else ValidationResult.fail e i).isSuccess = c := by
  cases c <;> rfl

theorem validate_ok_of_schema (d : NarrationOutput) (allowed : List String)
    (h : schemaValidate d = true) :
    validateNarrationOutputWithAllowedNames d allowed =
      (if (if allowed.isEmpty then emptyModeIssues d else allowedModeIssues d allowed).isEmpty
       then ValidationResult.ok d
       else .fail "Allowed-name validation failed"
         (if allowed.isEmpty then emptyModeIssues d else allowedModeIssues d allowed)) := by
  unfold validateNarrationOutputWithAllowedNames validateNarrationOutput
  rw [if_pos h]

theorem validate_isSuccess_iff (d : NarrationOutput) (allowed : List String)
    (h : schemaValidate d = true) :
    (validateNarrationOutputWithAllowedNames d allowed).isSuccess = true ↔
      (if allowed.isEmpty then emptyModeIssues d else allowedModeIssues d allowed) = [] := by
  rw [validate_ok_of_schema d allowed h, isSuccess_ite]
  exact List.isEmpty_iff

theorem emptyModeIssues_nil_iff (d : NarrationOutput) :
    emptyModeIssues d = [] ↔
      ((∀ p ∈ d.placesToVisit, p.name = noneSentinel) ∧
        d.activities.foodDrink = noneSentinel) := by
  unfold emptyModeIssues
  simp [List.append_eq_nil, List.filter_eq_nil, bne_iff_ne, not_not, ite_eq_right_iff]

/-- Claim C3: with an empty `allowedNames` set, a schema-valid output passes
`validateNarrationOutputWithAllowedNames` exactly when every `placesToVisit`
name and `activities.foodDrink` equal the sentinel "None found in data". -/
theorem claim_C3_sentinel_mode (d : NarrationOutput) (h : schemaValidate d = true) :
    (validateNarrationOutputWithAllowedNames d []).isSuccess = true ↔
      ((∀ p ∈ d.placesToVisit, p.name = noneSentinel) ∧
        d.activities.foodDrink = noneSentinel) := by
  rw [validate_isSuccess_iff d [] h]
  exact emptyModeIssues_nil_iff d

/-- Witness for C3 at a concrete sentinel-mode output. -/
theorem claim_C3_witness :
    (validateNarrationOutputWithAllowedNames c3Data []).isSuccess = true :=
  (claim_C3_sentinel_mode c3Data (by decide)).mpr (by decide)

theorem allowedModeIssues_nil_iff (d : NarrationOutput) (allowed : List String) :
    allowedModeIssues d allowed = [] ↔
      ((∀ p ∈ d.placesToVisit, allowed.contains p.name = true) ∧
        (d.activities.foodDrink = noneSentinel ∨
          containsSub (lowerL d.activities.foodDrink.toList) "none found".toList = true ∨
          ∃ n ∈ allowed, containsSub d.activities.foodDrink.toList n.toList = true) ∧
        2 ≤ d.placesToVisit.countP
          (fun p => containsSub d.detailParagraph.toList p.name.toList)) := by
  have part1 : ∀ (msgf : PlaceToVisit → String),
      ((d.placesToVisit.filter (fun p => !(allowed.contains p.name))).map msgf = []
        ↔ ∀ p ∈ d.placesToVisit, allowed.contains p.name = true) := by
    intro msgf
    rw [List.map_eq_nil_iff, List.filter_eq_nil]
    constructor
    · intro h p hp
      have hb := h p hp
      revert hb
      cases allowed.contains p.name <;> simp
    · intro h p hp
      rw [h p hp]
      simp
  have part2 : ∀ (g m : Bool) (msg : String),
      ((if !g && !m then [msg] else []) = ([] : List String) ↔ (g = true ∨ m = true)) := by
    intro g m msg
    cases g <;> cases m <;> simp
  have part3 : ∀ (c : Bool) (msg : String),
      ((if c then [msg] else []) = ([] : List String) ↔ c = false) := by
    intro c msg
    cases c <;> simp
  unfold allowedModeIssues
  rw [List.append_eq_nil, List.append_eq_nil, part1, part2, part3]
  simp only [Bool.or_eq_true, beq_iff_eq, List.any_eq_true,
    decide_eq_false_iff_not, not_lt, and_assoc, or_assoc]

/-- Claim C2, amended: with a non-empty `allowedNames` set, a schema-valid
output passes semantic validation iff every `placesToVisit` name is allowed,
`foodDrink` is generic (the exact sentinel or any text containing
"none found" case-insensitively) or contains at least one allowed name, and
`detailParagraph` contains at least 2 of the 3 `placesToVisit` names. -/
theorem claim_C2_allowed_mode (d : NarrationOutput) (allowed : List String)
    (h : schemaValidate d = true) (hne : allowed ≠ []) :
    (validateNarrationOutputWithAllowedNames d allowed).isSuccess = true ↔
      ((∀ p ∈ d.placesToVisit, allowed.contains p.name = true) ∧
        (d.activities.foodDrink = noneSentinel ∨
          containsSub (lowerL d.activities.foodDrink.toList) "none found".toList = true ∨
          ∃ n ∈ allowed, containsSub d.activities.foodDrink.toList n.toList = true) ∧
        2 ≤ d.placesToVisit.countP
          (fun p => containsSub d.detailParagraph.toList p.name.toList)) := by
  have hne' : allowed.isEmpty = false := by
    cases allowed with
    | nil => exact absurd rfl hne
    | cons a l => rfl
  rw [validate_isSuccess_iff d allowed h, hne',
    if_neg (fun hcontra => Bool.noConfusion hcontra)]
  exact allowedModeIssues_nil_iff d allowed

/-- Witness for the amended C2 at a concrete output and allowed set. -/
theorem claim_C2_witness :
    (validateNarrationOutputWithAllowedNames c2Data c2Allowed).isSuccess = true :=
  (claim_C2_allowed_mode c2Data c2Allowed (by decide) (by decide)).mpr (by decide)

/-- Counterexample to C2 as stated: this schema-valid output passes semantic
validation although `foodDrink` is not the sentinel and contains no allowed
name (it merely contains the text "none found"), so validation success is
not equivalent to the claimed three conditions. -/
theorem claim_C2_counterexample :
    (validateNarrationOutputWithAllowedNames c2Data c2Allowed).isSuccess = true
    ∧ c2Data.activities.foodDrink ≠ noneSentinel
    ∧ (∀ n ∈ c2Allowed, containsSub c2Data.activities.foodDrink.toList n.toList = false)
    ∧ c2Allowed ≠ [] := by decide

/-! ## Theorems: stream framing round-trip (claim C4) -/

theorem length_dropWhile_le (p : Char → Bool) (l : List Char) :
    (l.dropWhile p).length ≤ l.length := by
  induction l with
  | nil => simp
  | cons c cs ih =>
    rw [List.dropWhile_cons]
    by_cases hp : p c = true
    · simp only [hp, if_true]
      exact ih.trans (Nat.le_succ _)
    · simp [hp]

theorem dropWhile_eq_self_of_length (p : Char → Bool) (l : List Char)
    (h : (l.dropWhile p).length = l.length) : l.dropWhile p = l := by
  cases l with
  | nil => rfl
  | cons c cs =>
    by_cases hp : p c = true
    · rw [List.dropWhile_cons, if_pos hp] at h
      have h1 := length_dropWhile_le p cs
      simp only [List.length_cons] at h
      exfalso
      omega
    · rw [List.dropWhile_cons, if_neg hp]

theorem dropWhile_cons_self (p : Char → Bool) (c : Char) (cs : List Char)
    (h : (c :: cs).dropWhile p = c :: cs) : p c = false := by
  by_cases hp : p c = true
  · rw [List.dropWhile_cons, if_pos hp] at h
    have h1 := length_dropWhile_le p cs
    have h2 : (cs.dropWhile p).length = cs.length + 1 := by
      rw [h]
      simp
    exfalso
    omega
  · simpa using hp

theorem dropWhile_append_stable (p : Char → Bool) (x y : List Char)
    (hx : x.dropWhile p = x) (hy : y.dropWhile p = y) :
    (x ++ y).dropWhile p = x ++ y := by
  cases x with
  | nil => simpa using hy
  | cons c cs =>
    have hc : p c = false := dropWhile_cons_self p c cs hx
    simp [List.dropWhile_cons, hc]

theorem trimL_stable_parts (l : List Char) (h : trimL l = l) :
    l.dropWhile isWS = l ∧ l.reverse.dropWhile isWS = l.reverse := by
  unfold trimL at h
  have hlen := congrArg List.length h
  simp only [List.length_reverse] at hlen
  have hle1 : ((l.dropWhile isWS).reverse.dropWhile isWS).length
      ≤ (l.dropWhile isWS).length := by
    have := length_dropWhile_le isWS (l.dropWhile isWS).reverse
    simpa using this
  have hle2 := length_dropWhile_le isWS l
  have hq : (l.dropWhile isWS).length = l.length := by omega
  have ha : l.dropWhile isWS = l := dropWhile_eq_self_of_length isWS l hq
  refine ⟨ha, ?_⟩
  rw [ha] at h
  have := congrArg List.reverse h
  simpa using this

theorem trimL_stable_append (a b : List Char)
    (ha : trimL a = a) (hb : trimL b = b) : trimL (a ++ b) = a ++ b := by
  obtain ⟨ha1, ha2⟩ := trimL_stable_parts a ha
  obtain ⟨hb1, hb2⟩ := trimL_stable_parts b hb
  unfold trimL
  rw [dropWhile_append_stable isWS a b ha1 hb1, List.reverse_append,
    dropWhile_append_stable isWS b.reverse a.reverse hb2 ha2, ← List.reverse_append,
    List.reverse_reverse]

theorem trimL_space_cons (l : List Char) (h : trimL l = l) :
    trimL (' ' :: l) = l := by
  obtain ⟨h1, h2⟩ := trimL_stable_parts l h
  unfold trimL
  rw [List.dropWhile_cons]
  simp only [show isWS ' ' = true from rfl, if_true]
  rw [h1, h2, List.reverse_reverse]

theorem splitOn1_no_sep (sep : Char) (xs : List Char) (h : ∀ c ∈ xs, c ≠ sep) :
    splitOn1 sep xs = [xs] := by
  induction xs with
  | nil => rfl
  | cons c cs ih =>
    have hc : c ≠ sep := h c (List.mem_cons_self c cs)
    rw [splitOn1, if_neg hc, ih (fun x hx => h x (List.mem_cons_of_mem c hx))]

theorem sendEncode_single (msg : List Char) (h : ∀ c ∈ msg, c ≠ '\n') :
    sendEncode msg = "data: ".toList ++ msg ++ '\n' :: '\n' :: [] := by
  rw [sendEncode, splitOn1_no_sep '\n' msg h]
  simp

theorem splitNN_chunk (xs : List Char) (rest : List Char)
    (h : ∀ c ∈ xs, c ≠ '\n') :
    splitNN (xs ++ '\n' :: '\n' :: rest) = xs :: splitNN rest := by
  induction xs with
  | nil => simp [splitNN]
  | cons c cs ih =>
    have hc : c ≠ '\n' := h c (List.mem_cons_self c cs)
    have ih' := ih (fun x hx => h x (List.mem_cons_of_mem c hx))
    cases cs with
    | nil =>
      simp only [List.nil_append] at ih'
      simp [splitNN, hc, ih']
    | cons c₂ cs' =>
      simp only [List.cons_append] at ih' ⊢
      rw [splitNN, if_neg ?hne]
      case hne =>
        intro hcontra
        exact hc hcontra.1
      rw [ih']

theorem isPrefixOf_append_self (p t : List Char) : p.isPrefixOf (p ++ t) = true := by
  induction p with
  | nil => simp [List.isPrefixOf]
  | cons c cs ih => simpa [List.isPrefixOf] using ih

theorem removeFirstOcc_of_append (pat t : List Char) :
    removeFirstOcc pat (pat ++ t) = t := by
  cases pat with
  | nil =>
    cases t with
    | nil => rfl
    | cons c cs => simp [removeFirstOcc, List.isPrefixOf]
  | cons c cs =>
    simp only [List.cons_append, removeFirstOcc]
    rw [if_pos]
    · have := List.drop_left (c :: cs) t
      simpa using this
    · have := isPrefixOf_append_self (c :: cs) t
      simpa [List.cons_append] using this

/-- Claim C4, amended: the framing round-trip is exact for single-line,
trim-stable events.  For a metadata string and a narrative with no internal
newline and no leading/trailing whitespace, encoding through the route's
`send` and decoding through the client's `streamNarration` reconstructs the
metadata record and the narrative exactly (multi-line narratives are split
losslessly into framed lines, but the decoder keeps a literal "data: "
prefix on continuation lines; see the counterexample). -/
theorem claim_C4_roundtrip_single_line (M N : List Char)
    (hM : ∀ c ∈ M, c ≠ '\n') (hN : ∀ c ∈ N, c ≠ '\n')
    (hMt : trimL M = M) (hNt : trimL N = N) :
    decodeStream (encodeStream M N) = ["META:".toList ++ M, N, "END".toList] := by
  have hMetaNoNl : ∀ c ∈ "META:".toList, c ≠ '\n' := by decide
  have hDataNoNl : ∀ c ∈ "data: ".toList, c ≠ '\n' := by decide
  have hMfull : ∀ c ∈ "META:".toList ++ M, c ≠ '\n' := by
    intro c hc
    rcases List.mem_append.mp hc with hc | hc
    · exact hMetaNoNl c hc
    · exact hM c hc
  rw [encodeStream, sendEncode_single _ hMfull, sendEncode_single _ hN,
    sendEncode_single _ (by decide)]
  rw [decodeStream]
  have hx1 : ∀ c ∈ "data: ".toList ++ ("META:".toList ++ M), c ≠ '\n' := by
    intro c hc
    rcases List.mem_append.mp hc with hc | hc
    · exact hDataNoNl c hc
    · exact hMfull c hc
  have hx2 : ∀ c ∈ "data: ".toList ++ N, c ≠ '\n' := by
    intro c hc
    rcases List.mem_append.mp hc with hc | hc
    · exact hDataNoNl c hc
    · exact hN c hc
  have hshape :
      ("data: ".toList ++ ("META:".toList ++ M) ++ '\n' :: '\n' :: []) ++
        ("data: ".toList ++ N ++ '\n' :: '\n' :: []) ++
        ("data: ".toList ++ "END".toList ++ '\n' :: '\n' :: []) =
      (("data: ".toList ++ ("META:".toList ++ M)) ++ '\n' :: '\n' ::
        (("data: ".toList ++ N) ++ '\n' :: '\n' ::
          (("data: ".toList ++ "END".toList) ++ '\n' :: '\n' :: []))) := by
    simp
  rw [hshape, splitNN_chunk _ _ hx1, splitNN_chunk _ _ hx2,
    splitNN_chunk _ _ (by decide)]
  have hsplit : "data: ".toList = "data:".toList ++ [' '] := by decide
  have hMeta : trimL (' ' :: ("META:".toList ++ M)) = "META:".toList ++ M :=
    trimL_space_cons _ (trimL_stable_append _ _ (by decide) hMt)
  have hNarr : trimL (' ' :: N) = N := trimL_space_cons _ hNt
  have hEnd : trimL (' ' :: "END".toList) = "END".toList := by decide
  simp only [splitNN, List.dropLast, List.filterMap, hsplit, List.append_assoc,
    List.cons_append, List.nil_append, isPrefixOf_append_self, eq_self_iff_true,
    if_true, removeFirstOcc_of_append, hMeta, hNarr, hEnd]

/-- Counterexample to C4 as stated: a narrative with an internal newline is
not reconstructed — the decoder leaves a literal "data: " prefix on the
second line, so the decoded narrative differs from the encoded one. -/
theorem claim_C4_counterexample :
    decodeStream (encodeStream c4Meta c4Narr) =
      ["META:m1".toList, "ab\ndata: cd".toList, "END".toList]
    ∧ "ab\ndata: cd".toList ≠ c4Narr := by decide

/-- Witness for the amended C4 at concrete single-line strings. -/
theorem claim_C4_witness :
    decodeStream (encodeStream "m1".toList "hello out there".toList) =
      ["META:m1".toList, "hello out there".toList, "END".toList] :=
  claim_C4_roundtrip_single_line "m1".toList "hello out there".toList
    (by decide) (by decide) (by decide) (by decide)

/-! ## Theorems: narrate route event protocol (claim C5) -/

/-- Counterexample to C5 as stated: on the invalid-input path the stream's
first framed event is the human-readable error message, not a META record
(the fatal path likewise starts with a plain message). -/
theorem claim_C5_counterexample :
    narrateEvents .invalidInput = [invalidCoordsMsg, "END"]
    ∧ "META:".toList.isPrefixOf invalidCoordsMsg.toList = false := by decide

/-- Claim C5, amended: every narrate response stream ends with the literal
sentinel END; the streams that pass input validation (success and generation
failure) start with a META:(json) record; the generation-failure path emits
a single human-readable message directly before END, and the invalid-input
and fatal paths emit exactly one human-readable message followed by END. -/
theorem claim_C5_protocol :
    (∀ o : NarrateOutcome, (narrateEvents o).getLast? = some "END")
    ∧ (∀ m chunks, (narrateEvents (.success m chunks)).head? = some ("META:" ++ m))
    ∧ (∀ m sent, narrateEvents (.genFailure m sent)
        = ("META:" ++ m) :: sent ++ [genFailureMsg, "END"])
    ∧ narrateEvents .invalidInput = [invalidCoordsMsg, "END"]
    ∧ narrateEvents .fatal = [fatalErrorMsg, "END"] := by
  refine ⟨?_, fun m chunks => rfl, fun m sent => rfl, rfl, rfl⟩
  intro o
  cases o with
  | invalidInput => rfl
  | fatal => rfl
  | genFailure m sent =>
    show (("META:" ++ m) :: sent ++ [genFailureMsg, "END"]).getLast? = some "END"
    rw [show ("META:" ++ m) :: sent ++ [genFailureMsg, "END"]
        = (("META:" ++ m) :: sent ++ [genFailureMsg]) ++ ["END"] by simp]
    exact List.getLast?_concat _
  | success m chunks =>
    show (("META:" ++ m) :: flushChunks chunks [] ++ ["END"]).getLast? = some "END"
    rw [show ("META:" ++ m) :: flushChunks chunks [] ++ ["END"]
        = (("META:" ++ m) :: flushChunks chunks []) ++ ["END"] by simp]
    exact List.getLast?_concat _

/-! ## Theorems: bounded retry loop (claim C7) -/

theorem genLoop_attempts_le (delay : Nat) (env : Nat → AttemptOutcome) :
    ∀ (remaining attempt : Nat) (lastErr : Option String),
      (genLoop delay env attempt remaining lastErr).attemptsMade ≤ attempt + remaining := by
  intro remaining
  induction remaining with
  | zero => intro attempt lastErr; simp [genLoop]
  | succ r ih =>
    intro attempt lastErr
    rw [genLoop]
    cases henv : env (attempt + 1) with
    | valid out =>
      show attempt + 1 ≤ attempt + (r + 1)
      omega
    | invalid issues =>
      dsimp only
      have := ih (attempt + 1) (some (attemptFailMsg (.invalid issues) (attempt + 1)))
      omega
    | throwErr m =>
      dsimp only
      have := ih (attempt + 1) (some m)
      omega

theorem genLoop_first_valid (delay : Nat) (env : Nat → AttemptOutcome) :
    ∀ (remaining attempt : Nat) (lastErr : Option String) (j : Nat) (out : NarrationOutput),
      attempt < j → j ≤ attempt + remaining → env j = .valid out →
      (∀ i, attempt < i → i < j → (env i).isValid = false) →
      genLoop delay env attempt remaining lastErr =
        ⟨.ok out, List.replicate (j - (attempt + 1)) delay, j⟩ := by
  intro remaining
  induction remaining with
  | zero =>
    intro attempt lastErr j out h1 h2 _ _
    omega
  | succ r ih =>
    intro attempt lastErr j out h1 h2 hj hfail
    rw [genLoop]
    by_cases hje : j = attempt + 1
    · subst hje
      rw [hj]
      simp
    · have hlt : attempt + 1 < j := by omega
      have hne : (env (attempt + 1)).isValid = false :=
        hfail (attempt + 1) (by omega) hlt
      have hr : 0 < r := by omega
      have hrepl : List.replicate (j - (attempt + 1)) delay
          = delay :: List.replicate (j - (attempt + 2)) delay := by
        have : j - (attempt + 1) = (j - (attempt + 2)) + 1 := by omega
        rw [this, List.replicate_succ]
      cases henv : env (attempt + 1) with
      | valid out' => rw [henv] at hne; simp [AttemptOutcome.isValid] at hne
      | invalid issues =>
        dsimp only
        rw [ih (attempt + 1) _ j out hlt (by omega) hj
          (fun i hi1 hi2 => hfail i (by omega) hi2)]
        simp [hr, hrepl]
      | throwErr m =>
        dsimp only
        rw [ih (attempt + 1) _ j out hlt (by omega) hj
          (fun i hi1 hi2 => hfail i (by omega) hi2)]
        simp [hr, hrepl]

theorem genLoop_all_fail (delay : Nat) (env : Nat → AttemptOutcome) :
    ∀ (remaining attempt : Nat) (lastErr : Option String),
      1 ≤ remaining →
      (∀ i, attempt < i → i ≤ attempt + remaining → (env i).isValid = false) →
      genLoop delay env attempt remaining lastErr =
        ⟨.error (attemptFailMsg (env (attempt + remaining)) (attempt + remaining)),
          List.replicate (remaining - 1) delay, attempt + remaining⟩ := by
  intro remaining
  induction remaining with
  | zero => intro attempt lastErr h1 _; omega
  | succ r ih =>
    intro attempt lastErr _ hfail
    rw [genLoop]
    rcases Nat.eq_zero_or_pos r with hr | hr
    · subst hr
      have h1 : (env (attempt + 1)).isValid = false :=
        hfail (attempt + 1) (by omega) (by omega)
      cases henv : env (attempt + 1) with
      | valid out' => rw [henv] at h1; simp [AttemptOutcome.isValid] at h1
      | invalid issues => simp [genLoop, henv, attemptFailMsg]
      | throwErr m => simp [genLoop, henv, attemptFailMsg]
    · have h1 : (env (attempt + 1)).isValid = false :=
        hfail (attempt + 1) (by omega) (by omega)
      have hrepl : List.replicate (r + 1 - 1) delay
          = delay :: List.replicate (r - 1) delay := by
        have : r + 1 - 1 = (r - 1) + 1 := by omega
        rw [this, List.replicate_succ]
      have hrepl2 : delay :: List.replicate (r - 1) delay = List.replicate r delay := by
        have hre : r = (r - 1) + 1 := by omega
        conv_rhs => rw [hre]
        rw [List.replicate_succ]
      have harith : attempt + 1 + r = attempt + (r + 1) := by omega
      cases henv : env (attempt + 1) with
      | valid out' => rw [henv] at h1; simp [AttemptOutcome.isValid] at h1
      | invalid issues =>
        dsimp only
        rw [ih (attempt + 1) _ (by omega)
          (fun i hi1 hi2 => hfail i (by omega) (by omega))]
        simp [hr, hrepl, hrepl2, harith]
      | throwErr m =>
        dsimp only
        rw [ih (attempt + 1) _ (by omega)
          (fun i hi1 hi2 => hfail i (by omega) (by omega))]
        simp [hr, hrepl, hrepl2, harith]

/-- Claim C7, amended: the validated generation loop makes at most
`maxRetries` attempts; it returns the first output that passes validation,
having waited `retryDelayMs` once between consecutive failed attempts (never
after the final one); and when every attempt fails it raises only after all
`maxRetries` attempts, with the raised error carrying the issue list of the
last failed attempt (not an accumulation over all attempts). -/
theorem claim_C7_retry_loop (delay maxRetries : Nat) (env : Nat → AttemptOutcome) :
    ((generateQwenValidated delay maxRetries env).attemptsMade ≤ maxRetries)
    ∧ (∀ j out, 1 ≤ j → j ≤ maxRetries → env j = .valid out →
        (∀ i, 1 ≤ i → i < j → (env i).isValid = false) →
        generateQwenValidated delay maxRetries env
          = ⟨.ok out, List.replicate (j - 1) delay, j⟩)
    ∧ (1 ≤ maxRetries →
        (∀ i, 1 ≤ i → i ≤ maxRetries → (env i).isValid = false) →
        generateQwenValidated delay maxRetries env
          = ⟨.error (attemptFailMsg (env maxRetries) maxRetries),
              List.replicate (maxRetries - 1) delay, maxRetries⟩) := by
  refine ⟨?_, ?_, ?_⟩
  · have := genLoop_attempts_le delay env maxRetries 0 none
    simpa [generateQwenValidated] using this
  · intro j out h1 h2 hj hfail
    have := genLoop_first_valid delay env maxRetries 0 none j out (by omega) (by omega)
      hj (fun i hi1 hi2 => hfail i (by omega) hi2)
    simpa [generateQwenValidated] using this
  · intro h1 hfail
    have := genLoop_all_fail delay env maxRetries 0 none (by omega)
      (fun i hi1 hi2 => hfail i (by omega) (by omega))
    simpa [generateQwenValidated] using this

/-- Witness for the amended C7: with the default three retries and every
attempt failing, the loop makes exactly 3 attempts, waits twice, and raises
the last attempt's formatted message. -/
theorem claim_C7_witness :
    generateQwenValidated defaultRetryDelayMs defaultMaxRetries c7Env
      = ⟨.error (attemptFailMsg (c7Env defaultMaxRetries) defaultMaxRetries),
          List.replicate (defaultMaxRetries - 1) defaultRetryDelayMs, defaultMaxRetries⟩ :=
  (claim_C7_retry_loop defaultRetryDelayMs defaultMaxRetries c7Env).2.2 (by decide)
    (fun i hi1 hi2 => by
      have h3 : i ≤ 3 := hi2
      interval_cases i <;> decide)

/-- Counterexample to C7 as stated: after exhausting the retries the raised
error carries only the last attempt's issue list — the first attempt's issue
"issueA" does not appear in the error message. -/
theorem claim_C7_counterexample :
    (generateQwenValidated defaultRetryDelayMs defaultMaxRetries c7Env).result
      = .error "Schema validation failed (attempt 3): issueB"
    ∧ containsSub "Schema validation failed (attempt 3): issueB".toList "issueA".toList
        = false := by decide

/-! ## Theorems: budgeted resolver (claims C1 and C6) -/

/-- Claim C1: when a tier starts with the wall-clock budget elapsed, the
strategy loop starts no further tier (the result does not depend on the
remaining tiers) and returns the per-category best accumulators — which
failed tiers never shrink — as a successful result with the
`budgetExceeded` flag, instead of raising. -/
theorem claim_C1_budget_cutoff (dist : LatLon → LatLon → ℚ) (point : LatLon)
    (bestA bestF : List Poi) (lastErr : Option String) (t : TierEnv)
    (rest : List TierEnv) (h : POIS_BUDGET_MS ≤ t.elapsedAtStart) :
    getPoisLoop dist point bestA bestF lastErr (t :: rest)
      = .ok (⟨bestA, bestF⟩, true) := by
  rw [getPoisLoop, if_pos h]

/-- Witness for C1: a tier starting exactly at the budget returns the
(empty) accumulators with the flag, with further tiers pending. -/
theorem claim_C1_witness :
    getPoisLoop zeroDist originPt [] [] none [c1Tier, ⟨0, [], []⟩]
      = .ok (⟨[], []⟩, true) :=
  claim_C1_budget_cutoff zeroDist originPt [] [] none c1Tier [⟨0, [], []⟩]
    (le_refl POIS_BUDGET_MS)

theorem fetchFailover_all_fail (outcomes : List EndpointOutcome) :
    ∀ (lastErr : Option String), (∀ o ∈ outcomes, o.fails = true) →
      ∃ m, fetchOverpassWithFailover outcomes lastErr = .error m := by
  induction outcomes with
  | nil => intro lastErr _; exact ⟨lastErr.getD "Overpass failed on all endpoints", rfl⟩
  | cons o rest ih =>
    intro lastErr hall
    have ho := hall o (List.mem_cons_self o rest)
    have hrest := fun x hx => hall x (List.mem_cons_of_mem o hx)
    cases o with
    | success els => simp [EndpointOutcome.fails] at ho
    | overload s => exact ih _ hrest
    | httpError s ep => exact ih _ hrest
    | netError m => exact ih _ hrest

theorem getPoisLoop_all_fail (dist : LatLon → LatLon → ℚ) (point : LatLon)
    (env : List TierEnv) :
    ∀ (bestA bestF : List Poi) (lastErr : Option String),
      (∀ t ∈ env, t.elapsedAtStart < POIS_BUDGET_MS ∧
        (∀ o ∈ t.attrOutcomes ++ t.foodOutcomes, o.fails = true)) →
      ∃ m, getPoisLoop dist point bestA bestF lastErr env = .error m := by
  induction env with
  | nil =>
    intro bestA bestF lastErr _
    exact ⟨lastErr.getD "All Overpass strategies failed", rfl⟩
  | cons t rest ih =>
    intro bestA bestF lastErr hall
    obtain ⟨hb, hfails⟩ := hall t (List.mem_cons_self t rest)
    have hattr : ∀ o ∈ t.attrOutcomes, o.fails = true :=
      fun o ho => hfails o (List.mem_append.mpr (Or.inl ho))
    obtain ⟨m, hm⟩ := fetchFailover_all_fail t.attrOutcomes none hattr
    rw [getPoisLoop, if_neg (by omega), hm]
    exact ih bestA bestF (some m) (fun x hx => hall x (List.mem_cons_of_mem t hx))

/-- Claim C6: `getPoisSafe` is a total function of its environment (it never
raises), and when every endpoint attempt of every strategy tier fails —
within budget — it returns the empty result together with a descriptive
error string. -/
theorem claim_C6_safe_empty (dist : LatLon → LatLon → ℚ) (point : LatLon)
    (env : List TierEnv)
    (h : ∀ t ∈ env, t.elapsedAtStart < POIS_BUDGET_MS ∧
      (∀ o ∈ t.attrOutcomes ++ t.foodOutcomes, o.fails = true)) :
    ∃ msg, getPoisSafe dist point env =
      (⟨[], [], ["Overpass API unavailable: " ++ msg ++ ". Showing location info only."],
        []⟩, false) := by
  obtain ⟨m, hm⟩ := getPoisLoop_all_fail dist point env [] [] none h
  exact ⟨m, by rw [getPoisSafe, getPois, hm]⟩

/-- Witness for C6 at a concrete all-failing environment. -/
theorem claim_C6_witness :
    ∃ msg, getPoisSafe zeroDist originPt c6Env =
      (⟨[], [], ["Overpass API unavailable: " ++ msg ++ ". Showing location info only."],
        []⟩, false) :=
  claim_C6_safe_empty zeroDist originPt c6Env (by decide)

/-! ## Theorems: transformer dedup invariant (claim C8) -/

theorem dedupByKey_nodup (l : List Poi) :
    ∀ (seen : List String),
      ((dedupByKey l seen).map poiKey).Nodup ∧
        ∀ k ∈ (dedupByKey l seen).map poiKey, seen.contains k = false := by
  induction l with
  | nil =>
    intro seen
    exact ⟨List.nodup_nil, fun k hk => by simp [dedupByKey] at hk⟩
  | cons p rest ih =>
    intro seen
    by_cases hc : seen.contains (poiKey p) = true
    · rw [dedupByKey, if_pos hc]
      exact ih seen
    · rw [dedupByKey, if_neg hc]
      obtain ⟨hnd, hnotin⟩ := ih (poiKey p :: seen)
      refine ⟨?_, ?_⟩
      · rw [List.map_cons, List.nodup_cons]
        refine ⟨fun hmem => ?_, hnd⟩
        have := hnotin (poiKey p) hmem
        simp [List.contains_cons] at this
      · intro k hk
        rw [List.map_cons] at hk
        rcases List.mem_cons.mp hk with hk | hk
        · rw [hk]
          exact Bool.eq_false_iff.mpr hc
        · have := hnotin k hk
          rw [List.contains_cons] at this
          exact Bool.or_eq_false_iff.mp this |>.2

theorem stableInsert_perm (le : Poi → Poi → Bool) (x : Poi) (l : List Poi) :
    (stableInsert le x l).Perm (x :: l) := by
  induction l with
  | nil => exact List.Perm.refl _
  | cons y ys ih =>
    rw [stableInsert]
    by_cases hle : le y x = true
    · rw [if_pos hle]
      exact (ih.cons y).trans (List.Perm.swap x y ys)
    · rw [if_neg hle]

theorem stableSort_perm_aux (le : Poi → Poi → Bool) (l : List Poi) :
    ∀ (acc : List Poi),
      (l.foldl (fun a x => stableInsert le x a) acc).Perm (acc ++ l) := by
  induction l with
  | nil => intro acc; simp
  | cons x xs ih =>
    intro acc
    rw [List.foldl_cons]
    refine (ih (stableInsert le x acc)).trans ?_
    refine (List.Perm.append_right xs (stableInsert_perm le x acc)).trans ?_
    rw [show (x :: acc) ++ xs = x :: (acc ++ xs) from rfl]
    exact (List.perm_middle).symm

theorem stableSort_perm (le : Poi → Poi → Bool) (l : List Poi) :
    (stableSort le l).Perm l := by
  have := stableSort_perm_aux le l []
  simpa [stableSort] using this

/-- Claim C8: for every input element list, the transformed POI list has
pairwise distinct uniqueness keys (lower-cased name, 4-decimal rounded
coordinates, category): two input elements sharing a key never both
survive `elementsToPois`. -/
theorem claim_C8_dedup_invariant (dist : LatLon → LatLon → ℚ) (point : LatLon)
    (kind : PoiCategory) (elements : List OverpassElement) :
    ((elementsToPois dist point kind elements).map poiKey).Nodup := by
  unfold elementsToPois
  have h1 := (dedupByKey_nodup (elements.filterMap (elementToPoi dist point kind)) []).1
  have hperm := stableSort_perm poiLe
    (dedupByKey (elements.filterMap (elementToPoi dist point kind)) [])
  exact ((hperm.map poiKey).nodup_iff).mpr h1

/-! ## Theorems: diversity selectors (claims C9 and C10) -/

theorem diversityPass_mem {κ : Type} (cands : List Poi) (n : Nat)
    (keyMatch : κ → Poi → Bool) :
    ∀ (ks : List κ) (picked : List Poi) (used : List (List Char)) (x : Poi),
      x ∈ (diversityPass cands n keyMatch ks picked used).1 →
        x ∈ picked ∨ x ∈ cands := by
  intro ks
  induction ks with
  | nil => intro picked used x hx; exact Or.inl hx
  | cons k ks ih =>
    intro picked used x hx
    rw [diversityPass] at hx
    by_cases hn : n ≤ picked.length
    · rw [if_pos hn] at hx
      exact Or.inl hx
    · rw [if_neg hn] at hx
      cases hfind : cands.find? (fun p => keyMatch k p && !(used.contains (nameKey p))) with
      | none =>
        rw [hfind] at hx
        exact ih picked used x hx
      | some best =>
        rw [hfind] at hx
        rcases ih _ _ x hx with hp | hp
        · rcases List.mem_append.mp hp with hp | hp
          · exact Or.inl hp
          · rw [List.mem_singleton.mp hp]
            exact Or.inr (List.mem_of_find?_eq_some hfind)
        · exact Or.inr hp

theorem backfill_mem (n : Nat) :
    ∀ (ps picked : List Poi) (used : List (List Char)) (x : Poi),
      x ∈ backfill n ps picked used → x ∈ picked ∨ x ∈ ps := by
  intro ps
  induction ps with
  | nil => intro picked used x hx; exact Or.inl hx
  | cons p rest ih =>
    intro picked used x hx
    rw [backfill] at hx
    by_cases hn : n ≤ picked.length
    · rw [if_pos hn] at hx
      exact Or.inl hx
    · rw [if_neg hn] at hx
      by_cases hu : used.contains (nameKey p) = true
      · rw [if_pos hu] at hx
        rcases ih picked used x hx with hp | hp
        · exact Or.inl hp
        · exact Or.inr (List.mem_cons_of_mem p hp)
      · rw [if_neg hu] at hx
        rcases ih _ _ x hx with hp | hp
        · rcases List.mem_append.mp hp with hp | hp
          · exact Or.inl hp
          · exact Or.inr (List.mem_cons.mpr (Or.inl (List.mem_singleton.mp hp)))
        · exact Or.inr (List.mem_cons_of_mem p hp)

/-- Claim C10: the diversity selectors only ever return POIs from their
candidate window — the first 20 name-valid candidates in input order for
attractions, and the first 20 name-valid candidates after sorting by
descending score then ascending distance for food.  A POI outside that
window is never returned. -/
theorem claim_C10_candidate_window (l : List Poi) (n : Nat) :
    (∀ p ∈ pickDiverseAttractions l n, p ∈ attrCandidates l)
    ∧ (∀ p ∈ pickDiverseFood l n, p ∈ foodCandidates l) := by
  constructor
  · intro p hp
    rw [pickDiverseAttractions] at hp
    have hp' := List.take_subset n _ hp
    rcases backfill_mem n _ _ _ p hp' with hp'' | hp''
    · rcases diversityPass_mem (attrCandidates l) n _ attrBuckets [] [] p hp'' with h0 | h0
      · simp at h0
      · exact h0
    · exact hp''
  · intro p hp
    rw [pickDiverseFood] at hp
    have hp' := List.take_subset n _ hp
    rcases backfill_mem n _ _ _ p hp' with hp'' | hp''
    · rcases diversityPass_mem (foodCandidates l) n _ foodKinds [] [] p hp'' with h0 | h0
      · simp at h0
      · exact h0
    · exact hp''

/-- Witness for C10 at concrete attraction and food lists. -/
theorem claim_C10_witness :
    mkAttraction "Fort Hill" .history 5 1 ∈ attrCandidates c10Attr
    ∧ mkFood "The Anchor" .pub 5 1 ∈ foodCandidates c10Food :=
  ⟨(claim_C10_candidate_window c10Attr 3).1 _ (by decide),
   (claim_C10_candidate_window c10Food 6).2 _ (by decide)⟩

theorem find?_congr (l : List Poi) (p q : Poi → Bool)
    (h : ∀ x ∈ l, p x = q x) : l.find? p = l.find? q := by
  induction l with
  | nil => rfl
  | cons a t ih =>
    rw [List.find?_cons, List.find?_cons, h a (List.mem_cons_self a t),
      ih (fun x hx => h x (List.mem_cons_of_mem a hx))]

theorem diversityPass_step_found {κ : Type} (cands : List Poi) (n : Nat)
    (keyMatch : κ → Poi → Bool) (k : κ) (ks : List κ) (picked : List Poi)
    (used : List (List Char)) (best : Poi)
    (hlt : picked.length < n)
    (hfind : cands.find? (fun p => keyMatch k p && !(used.contains (nameKey p)))
      = some best) :
    diversityPass cands n keyMatch (k :: ks) picked used
      = diversityPass cands n keyMatch ks (picked ++ [best]) (used ++ [nameKey best]) := by
  rw [diversityPass, if_neg (by omega), hfind]

theorem diversityPass_stop {κ : Type} (cands : List Poi) (n : Nat)
    (keyMatch : κ → Poi → Bool) (k : κ) (ks : List κ) (picked : List Poi)
    (used : List (List Char)) (hge : n ≤ picked.length) :
    diversityPass cands n keyMatch (k :: ks) picked used = (picked, used) := by
  rw [diversityPass, if_pos hge]

theorem backfill_full (n : Nat) (ps picked : List Poi) (used : List (List Char))
    (hge : n ≤ picked.length) : backfill n ps picked used = picked := by
  cases ps with
  | nil => rfl
  | cons p rest => rw [backfill, if_pos hge]

/-- Claim C9, amended: when the first 20 name-valid candidates cover the
buckets history, culture and scenic, and the candidates' lower-cased names
are pairwise distinct, `pickDiverseAttractions` with n = 3 returns exactly
the first history, first culture and first scenic candidate in input order
(the input reaches the selector already sorted by score), one per bucket in
the priority order history, culture, scenic, and never two POIs with the
same name. -/
theorem claim_C9_bucket_coverage (l : List Poi)
    (hnd : ((attrCandidates l).map nameKey).Nodup)
    (hh : ∃ p ∈ attrCandidates l, p.bucket = some .history)
    (hc : ∃ p ∈ attrCandidates l, p.bucket = some .culture)
    (hs : ∃ p ∈ attrCandidates l, p.bucket = some .scenic) :
    ∃ h c s,
      (attrCandidates l).find? (fun p => p.bucket == some .history) = some h ∧
      (attrCandidates l).find? (fun p => p.bucket == some .culture) = some c ∧
      (attrCandidates l).find? (fun p => p.bucket == some .scenic) = some s ∧
      pickDiverseAttractions l 3 = [h, c, s] ∧
      h.bucket = some .history ∧ c.bucket = some .culture ∧ s.bucket = some .scenic ∧
      ([h, c, s].map nameKey).Nodup := by
  have findSome : ∀ (b : PoiBucket), (∃ p ∈ attrCandidates l, p.bucket = some b) →
      ∃ x, (attrCandidates l).find? (fun p => p.bucket == some b) = some x := by
    rintro b ⟨p, hp, hb⟩
    exact Option.isSome_iff_exists.mp
      (List.find?_isSome.mpr ⟨p, hp, by simp [hb]⟩)
  obtain ⟨h, hfh⟩ := findSome .history hh
  obtain ⟨c, hfc⟩ := findSome .culture hc
  obtain ⟨s, hfs⟩ := findSome .scenic hs
  have hmemh := List.mem_of_find?_eq_some hfh
  have hmemc := List.mem_of_find?_eq_some hfc
  have hmems := List.mem_of_find?_eq_some hfs
  have hbh : h.bucket = some .history := by simpa using List.find?_some hfh
  have hbc : c.bucket = some .culture := by simpa using List.find?_some hfc
  have hbs : s.bucket = some .scenic := by simpa using List.find?_some hfs
  have hinj := List.inj_on_of_nodup_map hnd
  have hkey : ∀ x y : Poi, x ∈ attrCandidates l → y ∈ attrCandidates l →
      x.bucket ≠ y.bucket → nameKey x ≠ nameKey y := by
    intro x y hx hy hbne he
    exact hbne (by rw [hinj hx hy he])
  have hkch : nameKey c ≠ nameKey h := hkey c h hmemc hmemh (by rw [hbc, hbh]; simp)
  have hksh : nameKey s ≠ nameKey h := hkey s h hmems hmemh (by rw [hbs, hbh]; simp)
  have hksc : nameKey s ≠ nameKey c := hkey s c hmems hmemc (by rw [hbs, hbc]; simp)
  have find1 : (attrCandidates l).find?
      (fun p => (p.bucket == some PoiBucket.history)
        && !(([] : List (List Char)).contains (nameKey p))) = some h := by
    rw [find?_congr _ _ (fun p => p.bucket == some PoiBucket.history)
      (fun x _ => by simp [List.contains])]
    exact hfh
  have find2 : (attrCandidates l).find?
      (fun p => (p.bucket == some PoiBucket.culture)
        && !((([] : List (List Char)) ++ [nameKey h]).contains (nameKey p))) = some c := by
    rw [find?_congr _ _ (fun p => p.bucket == some PoiBucket.culture) ?hcong]
    · exact hfc
    case hcong =>
      intro x hx
      by_cases hbx : x.bucket = some PoiBucket.culture
      · have hne : nameKey x ≠ nameKey h :=
          hkey x h hx hmemh (by rw [hbx, hbh]; simp)
        simp [hbx, hne]
      · simp [hbx]
  have find3 : (attrCandidates l).find?
      (fun p => (p.bucket == some PoiBucket.scenic)
        && !(((([] : List (List Char)) ++ [nameKey h]) ++ [nameKey c]).contains
              (nameKey p))) = some s := by
    rw [find?_congr _ _ (fun p => p.bucket == some PoiBucket.scenic) ?hcong]
    · exact hfs
    case hcong =>
      intro x hx
      by_cases hbx : x.bucket = some PoiBucket.scenic
      · have hne1 : nameKey x ≠ nameKey h :=
          hkey x h hx hmemh (by rw [hbx, hbh]; simp)
        have hne2 : nameKey x ≠ nameKey c :=
          hkey x c hx hmemc (by rw [hbx, hbc]; simp)
        simp [hbx, hne1, hne2]
      · simp [hbx]
  refine ⟨h, c, s, hfh, hfc, hfs, ?_, hbh, hbc, hbs, ?_⟩
  · rw [pickDiverseAttractions]
    rw [show attrBuckets = [PoiBucket.history, PoiBucket.culture, PoiBucket.scenic,
          PoiBucket.landmark, PoiBucket.park] from rfl]
    rw [diversityPass_step_found _ _ _ _ _ _ _ _ (by simp) find1]
    rw [diversityPass_step_found _ _ _ _ _ _ _ _ (by simp) find2]
    rw [diversityPass_step_found _ _ _ _ _ _ _ _ (by simp) find3]
    rw [diversityPass_stop _ _ _ _ _ _ _ (by simp)]
    dsimp only
    rw [backfill_full _ _ _ _ (by simp)]
    simp
  · simp only [List.map_cons, List.map_nil, List.nodup_cons, List.mem_cons,
      List.mem_singleton, List.not_mem_nil, List.nodup_nil]
    refine ⟨?_, ?_, ?_⟩
    · intro hmem
      rcases hmem with hmem | hmem | hmem
      · exact hkch (hmem.symm)
      · exact hksh (hmem.symm)
      · exact hmem
    · intro hmem
      rcases hmem with hmem | hmem
      · exact hksc (hmem.symm)
      · exact hmem
    · trivial

/-- Witness for the amended C9 at a concrete candidate list covering the
three buckets with distinct names. -/
theorem claim_C9_witness :
    ∃ h c s,
      (attrCandidates c9WitnessPois).find? (fun p => p.bucket == some .history) = some h ∧
      (attrCandidates c9WitnessPois).find? (fun p => p.bucket == some .culture) = some c ∧
      (attrCandidates c9WitnessPois).find? (fun p => p.bucket == some .scenic) = some s ∧
      pickDiverseAttractions c9WitnessPois 3 = [h, c, s] ∧
      h.bucket = some .history ∧ c.bucket = some .culture ∧ s.bucket = some .scenic ∧
      ([h, c, s].map nameKey).Nodup :=
  claim_C9_bucket_coverage c9WitnessPois (by decide) (by decide) (by decide) (by decide)

/-- Counterexample to C9 as stated: these candidates have one POI in each of
the history, culture and scenic buckets, yet the selector returns no
culture POI at all — the culture representative shares its lower-cased name
with the already-picked history POI, so the bucket walk skips it and the
backfill skips it too. -/
theorem claim_C9_counterexample :
    (c9Pois.countP (fun p => p.bucket == some PoiBucket.history) = 1)
    ∧ (c9Pois.countP (fun p => p.bucket == some PoiBucket.culture) = 1)
    ∧ (c9Pois.countP (fun p => p.bucket == some PoiBucket.scenic) = 1)
    ∧ ((pickDiverseAttractions c9Pois 3).countP
        (fun p => p.bucket == some PoiBucket.culture) = 0)
    ∧ (pickDiverseAttractions c9Pois 3).length = 2 := by decide

end MapNarrator
